import Mathlib

/-!
Verification development for the Claudex hologram sidecar server
(`sidecar/server.py`).

Python dictionaries (and `collections.OrderedDict`) are modelled as
association lists in insertion order: the head of the list is the
oldest / least-recently-inserted entry, assignment to an existing key
updates the value in place (keeping its position), assignment to a new
key appends at the end, `OrderedDict.move_to_end` re-inserts at the end,
and `popitem(last=False)` removes the head.

External boundaries (the filesystem calls `os.path.realpath`,
`os.path.expanduser`, `os.walk`, `os.path.getmtime`, `open(...).read()`,
the stdlib glob matcher `fnmatch.fnmatch`, and the opaque hologram
engine `Session` with its `add_file` / `update_file` / `turn` / `save`)
are modelled as explicit parameters, so that every definition here is
executable once those parameters are instantiated.
-/

namespace Claudex

/-! ## Association-list model of Python dict / OrderedDict -/

variable {K : Type} {V : Type} [DecidableEq K]

/-- `d.get(k)` / `d[k]`: value at the first (unique) occurrence of `k`. -/
def lookupA : List (K × V) → K → Option V
  | [], _ => none
  | (a, v) :: rest, k => if a = k then some v else lookupA rest k

/-- `k in d`. -/
def memA (l : List (K × V)) (k : K) : Bool :=
  (lookupA l k).isSome

/-- Replace the value at the first occurrence of `k`, keeping its position. -/
def updateA : List (K × V) → K → V → List (K × V)
  | [], _, _ => []
  | (a, v) :: rest, k, w =>
    if a = k then (a, w) :: rest else (a, v) :: updateA rest k w

/-- `d[k] = v`: update in place if present, else append at the end. -/
def dictInsert (l : List (K × V)) (k : K) (v : V) : List (K × V) :=
  if memA l k then updateA l k v else l ++ [(k, v)]

/-- `d.pop(k, None)` / `del d[k]`: drop the first occurrence of `k`. -/
def eraseA : List (K × V) → K → List (K × V)
  | [], _ => []
  | (a, v) :: rest, k => if a = k then rest else (a, v) :: eraseA rest k

/-- `OrderedDict.move_to_end(k)`: re-insert the entry for `k` at the end
(no-op when `k` is absent; in the source it is only called on present keys). -/
def moveToEnd (l : List (K × V)) (k : K) : List (K × V) :=
  match lookupA l k with
  | none => l
  | some v => eraseA l k ++ [(k, v)]

theorem lookupA_append_left {l1 l2 : List (K × V)} {k : K} (h : memA l1 k) :
    lookupA (l1 ++ l2) k = lookupA l1 k := by
  induction l1 with
  | nil => simp [memA, lookupA] at h
  | cons e rest ih =>
    by_cases he : e.1 = k
    · simp [lookupA, he]
    · simp [memA, lookupA, he] at h ⊢
      exact ih h

theorem lookupA_append_right {l1 l2 : List (K × V)} {k : K} (h : memA l1 k = false) :
    lookupA (l1 ++ l2) k = lookupA l2 k := by
  induction l1 with
  | nil => simp
  | cons e rest ih =>
    by_cases he : e.1 = k
    · simp [memA, lookupA, he] at h
    · simp only [memA, lookupA, he, if_false, List.cons_append] at h ⊢
      exact ih h

theorem lookupA_updateA_self {l : List (K × V)} {k : K} {w : V} (h : memA l k) :
    lookupA (updateA l k w) k = some w := by
  induction l with
  | nil => simp [memA, lookupA] at h
  | cons e rest ih =>
    by_cases he : e.1 = k
    · simp [updateA, lookupA, he]
    · simp [memA, lookupA, updateA, he] at h ⊢
      exact ih h

theorem lookupA_updateA_ne {l : List (K × V)} {k k2 : K} {w : V} (h : k ≠ k2) :
    lookupA (updateA l k w) k2 = lookupA l k2 := by
  induction l with
  | nil => simp [updateA]
  | cons e rest ih =>
    by_cases he : e.1 = k
    · subst he
      simp [updateA, lookupA, h]
    · simp [updateA, lookupA, he]
      split <;> simp_all [lookupA]

theorem lookupA_dictInsert_self (l : List (K × V)) (k : K) (v : V) :
    lookupA (dictInsert l k v) k = some v := by
  unfold dictInsert
  by_cases h : memA l k
  · simp [h, lookupA_updateA_self h]
  · simp only [h]
    rw [if_neg (by simp [h]), lookupA_append_right (by simpa using h)]
    simp [lookupA]

theorem lookupA_dictInsert_ne (l : List (K × V)) {k k2 : K} (v : V) (h : k ≠ k2) :
    lookupA (dictInsert l k v) k2 = lookupA l k2 := by
  unfold dictInsert
  by_cases hm : memA l k
  · simp [hm, lookupA_updateA_ne h]
  · simp only [hm]
    rw [if_neg (by simp [hm])]
    by_cases h2 : memA l k2
    · exact lookupA_append_left h2
    · have h2n : lookupA l k2 = none := by
        simpa [memA] using h2
      rw [lookupA_append_right (by simp [memA, h2n])]
      simp [lookupA, h, h2n]

theorem memA_dictInsert (l : List (K × V)) (k k2 : K) (v : V) :
    memA (dictInsert l k v) k2 = (k = k2 || memA l k2) := by
  by_cases h : k = k2
  · subst h
    simp [memA, lookupA_dictInsert_self]
  · simp [memA, lookupA_dictInsert_ne l v h, h]

theorem lookupA_none_of_not_mem {l : List (K × V)} {k : K} (h : memA l k = false) :
    lookupA l k = none := by
  simpa [memA] using h

theorem lookupA_append_singleton_ne {l : List (K × V)} {a k : K} {v : V} (h : a ≠ k) :
    lookupA (l ++ [(a, v)]) k = lookupA l k := by
  by_cases hm : memA l k
  · exact lookupA_append_left hm
  · have hn := lookupA_none_of_not_mem (by simpa using hm)
    rw [lookupA_append_right (by simpa using hm)]
    simp [lookupA, h, hn]

theorem memA_append_left {l1 : List (K × V)} (l2 : List (K × V)) {k : K}
    (h : memA l1 k = true) :
    memA (l1 ++ l2) k = true := by
  simp [memA, lookupA_append_left h]
  simpa [memA] using h

theorem updateA_not_mem {l : List (K × V)} {a : K} (w : V) (h : memA l a = false) :
    updateA l a w = l := by
  induction l with
  | nil => rfl
  | cons e rest ih =>
    by_cases he : e.1 = a
    · simp [memA, lookupA, he] at h
    · simp only [memA, lookupA, he, if_false] at h
      simp [updateA, he, ih h]

theorem memA_updateA (l : List (K × V)) (a k : K) (w : V) :
    memA (updateA l a w) k = memA l k := by
  by_cases h : a = k
  · subst h
    by_cases hm : memA l a
    · simp [memA, lookupA_updateA_self hm]
      simpa [memA] using hm
    · rw [updateA_not_mem w (by simpa using hm)]
  · simp [memA, lookupA_updateA_ne h]

theorem eraseA_append_not_mem {l1 l2 : List (K × V)} {k : K} (h : memA l1 k = false) :
    eraseA (l1 ++ l2) k = l1 ++ eraseA l2 k := by
  induction l1 with
  | nil => rfl
  | cons e rest ih =>
    by_cases he : e.1 = k
    · simp [memA, lookupA, he] at h
    · simp only [memA, lookupA, he, if_false] at h
      simp [eraseA, he, ih h]

theorem eraseA_length_of_mem {l : List (K × V)} {k : K} (h : memA l k) :
    (eraseA l k).length + 1 = l.length := by
  induction l with
  | nil => simp [memA, lookupA] at h
  | cons e rest ih =>
    by_cases he : e.1 = k
    · simp [eraseA, he]
    · simp [memA, lookupA, he] at h
      simp [eraseA, he, ih h]

/-! ## Filesystem boundary and the path canonicalizer -/

/-- The filesystem-dependent path primitives used by `_canonical_dir`. -/
structure FSModel where
  realpath : String → String
  expanduser : String → String

/-- `_canonical_dir` (server.py:47-51): empty maps to empty, otherwise
`os.path.realpath(os.path.expanduser(path))`. -/
def canonical_dir (fs : FSModel) (path : String) : String :=
  if path = "" then "" else fs.realpath (fs.expanduser path)

/-- `_cache_key` (server.py:53-55). -/
def cache_key (fs : FSModel) (claude_dir project_dir : String) : String × String :=
  (canonical_dir fs claude_dir, canonical_dir fs project_dir)

/-- Trivial filesystem where every path is its own canonical form
(used to evaluate the model at concrete inputs). -/
def idFS : FSModel := ⟨fun s => s, fun s => s⟩

/-! ## Engine file records and sessions -/

/-- One record of the engine's file table: `{content, raw_pressure,
pressure_bucket}`.  The Python floats are modelled as rationals. -/
structure FileRec where
  content : String
  raw_pressure : Rat
  pressure_bucket : Int
  deriving DecidableEq, Repr

/-- The opaque hologram `Session`, modelled by the only parts this core
touches: the config root it was constructed from and its file table
(`session.system.files`). -/
structure Session where
  root : String
  files : List (String × FileRec)
  deriving DecidableEq, Repr

/-! ## Session registry and lock registry (server.py:37-85) -/

/-- The module-level mutable state: `_session_cache` (OrderedDict, LRU)
and `_session_locks` (dict key → asyncio.Lock; the lock objects are
opaque, so the value type is `Unit`). -/
structure Registry where
  session_cache : List ((String × String) × Session)
  session_locks : List ((String × String) × Unit)
  deriving DecidableEq, Repr

/-- `_MAX_CACHED_SESSIONS` (server.py:38). -/
def _MAX_CACHED_SESSIONS : Nat := 3

/-- The `while len(_session_cache) > _MAX_CACHED_SESSIONS:` eviction loop
(server.py:73-76): pop the oldest entry and discard its lock until the
cache is back under capacity. -/
def evictLoop : List ((String × String) × Session) →
    List ((String × String) × Unit) →
    List ((String × String) × Session) × List ((String × String) × Unit)
  | [], locks => ([], locks)
  | e :: rest, locks =>
    if (e :: rest).length > _MAX_CACHED_SESSIONS then
      evictLoop rest (eraseA locks e.1)
    else (e :: rest, locks)

/-- `_get_session` (server.py:57-78).  `mk` is the external `Session`
constructor (`SessionCls(key[0])` — always rooted at the canonical
claude_dir).  Returns the session together with the updated registry. -/
def _get_session (fs : FSModel) (mk : String → Session) (st : Registry)
    (claude_dir : String) (project_dir : String := "") : Session × Registry :=
  match lookupA st.session_cache (cache_key fs claude_dir project_dir) with
  | some session =>
    (session,
     { st with
         session_cache :=
           moveToEnd st.session_cache (cache_key fs claude_dir project_dir) })
  | none =>
    (mk (cache_key fs claude_dir project_dir).1,
     { session_cache :=
         (evictLoop
           (moveToEnd
             (dictInsert st.session_cache (cache_key fs claude_dir project_dir)
               (mk (cache_key fs claude_dir project_dir).1))
             (cache_key fs claude_dir project_dir))
           st.session_locks).1,
       session_locks :=
         (evictLoop
           (moveToEnd
             (dictInsert st.session_cache (cache_key fs claude_dir project_dir)
               (mk (cache_key fs claude_dir project_dir).1))
             (cache_key fs claude_dir project_dir))
           st.session_locks).2 })

/-- `_get_lock` (server.py:80-85): create the per-key lock on demand. -/
def _get_lock (fs : FSModel) (st : Registry)
    (claude_dir : String) (project_dir : String := "") : Registry :=
  let key := cache_key fs claude_dir project_dir
  if memA st.session_locks key then st
  else { st with session_locks := st.session_locks ++ [(key, ())] }

/-- Fold a sequence of `_get_session` calls (pairs of raw
`(claude_dir, project_dir)` arguments) over the registry state. -/
def runGetSessions (fs : FSModel) (mk : String → Session) (st : Registry) :
    List (String × String) → Registry
  | [] => st
  | (cd, pd) :: rest =>
    runGetSessions fs mk (_get_session fs mk st cd pd).2 rest

/-! ## File injection and pressure bootstrap (server.py:201-229) -/

/-- External engine operations used by `_inject_project_files`:
`add_file(key, content, rebuild_dag=False)` creates a fresh record from
the content, and `update_file(key, content)` rewrites an existing
record; both are opaque engine methods, only their record-level effect
is a parameter here.  `_rebuild_dag` does not touch the file table and
is modelled as the identity. -/
structure EngineOps where
  addRec : String → FileRec
  updRec : FileRec → String → FileRec

/-- The first loop of `_inject_project_files` (server.py:210-216):
walk the scanned `project_files`, adding unknown keys (recording them
in `newly_added`) and updating keys whose content changed. -/
def injectLoop (eng : EngineOps) :
    List (String × FileRec) → List (String × String) →
    List (String × FileRec) × List String
  | files, [] => (files, [])
  | files, (key, content) :: rest =>
    match lookupA files key with
    | some old =>
      injectLoop eng
        (if old.content ≠ content then updateA files key (eng.updRec old content)
         else files) rest
    | none =>
      match injectLoop eng (files ++ [(key, eng.addRec content)]) rest with
      | (files2, newly) => (files2, key :: newly)

/-- The bootstrap loop of `_inject_project_files` (server.py:223-226):
every newly added key gets `raw_pressure = 0.45`, `pressure_bucket = 22`. -/
def bootstrapWarm : List (String × FileRec) → List String → List (String × FileRec)
  | files, [] => files
  | files, key :: rest =>
    match lookupA files key with
    | none => bootstrapWarm files rest
    | some f =>
      bootstrapWarm
        (updateA files key { f with raw_pressure := 45/100, pressure_bucket := 22 }) rest

/-- `_inject_project_files` (server.py:201-229): run the add/update
pass, then bootstrap exactly the newly added keys to WARM
(`_rebuild_dag` does not touch the file table and is the identity in
this model). -/
def _inject_project_files (eng : EngineOps) (s : Session)
    (project_files : List (String × String)) : Session :=
  { s with files := bootstrapWarm (injectLoop eng s.files project_files).1
                      (injectLoop eng s.files project_files).2 }

/-! ## Boost application (server.py:279-284) -/

/-- The key under which a caller-supplied boost file is looked up:
`f"project:{bf}" if not bf.startswith("project:") else bf`. -/
def boostKey (bf : String) : String :=
  if bf.startsWith "project:" then bf else "project:" ++ bf

/-- The two `max` assignments of the boost body (server.py:283-284). -/
def boostRec (f : FileRec) : FileRec :=
  { f with raw_pressure := max f.raw_pressure (6/10),
           pressure_bucket := max f.pressure_bucket 30 }

/-- The body of the boost loop for one identifier (server.py:280-284). -/
def boostOne (s : Session) (bf : String) : Session :=
  match lookupA s.files (boostKey bf) with
  | none => s
  | some f => { s with files := updateA s.files (boostKey bf) (boostRec f) }

/-- The whole `for bf in boost_files:` loop. -/
def applyBoost (s : Session) (boost_files : List String) : Session :=
  boost_files.foldl boostOne s

/-! ## Project file scanner (server.py:88-198)

`os.walk` with its in-place directory pruning is a filesystem boundary;
it is modelled by the stream of candidate files the (pruned) walk
yields, each carrying its relative POSIX path together with the
outcomes of the two fallible filesystem calls made on it:
`os.path.getmtime` (`none` = OSError) and `open(...).read()`
(`none` = OSError).  The stdlib glob matcher `fnmatch.fnmatch` is the
parameter `fnm`. -/

/-- Default include patterns `_DEFAULT_PATTERNS` (server.py:89). -/
def _DEFAULT_PATTERNS : List String :=
  ["*.md", "*.ts", "*.py", "**/*.md", "**/*.ts", "**/*.py"]

/-- Default exclude patterns `_DEFAULT_EXCLUDES` (server.py:90-94). -/
def _DEFAULT_EXCLUDES : List String :=
  ["node_modules/**", ".git/**", "dist/**", "build/**", "coverage/**",
   "**/*.test.ts", "**/*.spec.ts", "**/*.test.tsx", "**/*.spec.tsx",
   "**/test_*.py", "**/*_test.py", "**/tests/**"]

/-- `_DEFAULT_MAX_FILES` (server.py:95). -/
def _DEFAULT_MAX_FILES : Nat := 200

/-- The scan configuration after the `config.get(..., default)` reads
(server.py:118-120). -/
structure ScanConfig where
  patterns : List String := _DEFAULT_PATTERNS
  excludes : List String := _DEFAULT_EXCLUDES
  max_files : Nat := _DEFAULT_MAX_FILES

/-- The final path component (what `pathlib.PurePosixPath(rel).name`
returns for the slash-free check in `_matches_any`). -/
def posixName (rel : String) : String :=
  match (rel.splitOn "/").getLast? with
  | some n => n
  | none => rel

/-- `_matches_any` (server.py:98-107): the path matches some pattern,
where patterns without a slash are also tried against the bare
filename.  `rel_path` is already a POSIX relative path, so the
`PurePosixPath(...).as_posix()` normalization is the identity. -/
def _matches_any (fnm : String → String → Bool)
    (rel_path : String) (patterns : List String) : Bool :=
  patterns.any fun pattern =>
    fnm rel_path pattern ||
      (!(pattern.contains '/') && fnm (posixName rel_path) pattern)

/-- One candidate file yielded by the walk. -/
structure ScanFile where
  rel : String
  mtimeOf : Option Nat
  readOf : Option String

/-- The mutable per-scan state (server.py:129-131). -/
structure ScanState where
  new_mtimes : List (String × Nat)
  result : List (String × String)
  file_count : Nat
  deriving DecidableEq, Repr

/-- The body of the per-file loop (server.py:152-186).  The
`if file_count >= max_files: break` pair is modelled by the leading
guard: once the count reaches the cap, every later candidate is
skipped, which yields the same final state as breaking out of both
loops. -/
def scanStep (fnm : String → String → Bool) (cfg : ScanConfig)
    (prev_mtimes : List (String × Nat)) (prev_contents : List (String × String))
    (st : ScanState) (f : ScanFile) : ScanState :=
  if st.file_count ≥ cfg.max_files then st
  else if !_matches_any fnm f.rel cfg.patterns then st
  else if _matches_any fnm f.rel cfg.excludes then st
  else
    match f.mtimeOf with
    | none => st
    | some mtime =>
      match (if lookupA prev_mtimes ("project:" ++ f.rel) = some mtime
             then lookupA prev_contents ("project:" ++ f.rel) else none) with
      | some content =>
        ⟨dictInsert st.new_mtimes ("project:" ++ f.rel) mtime,
         dictInsert st.result ("project:" ++ f.rel) content,
         st.file_count + 1⟩
      | none =>
        match f.readOf with
        | none =>
          ⟨dictInsert st.new_mtimes ("project:" ++ f.rel) mtime,
           st.result, st.file_count⟩
        | some content =>
          ⟨dictInsert st.new_mtimes ("project:" ++ f.rel) mtime,
           dictInsert st.result ("project:" ++ f.rel) content,
           st.file_count + 1⟩

/-- The two module-level scan caches (server.py:42-45): plain dicts
keyed by the canonical project root. -/
structure ScanCaches where
  _mtime_cache : List (String × List (String × Nat))
  _content_cache : List (String × List (String × String))
  deriving DecidableEq, Repr

/-- `_scan_project_files` (server.py:110-198): fold the per-file step
over the walk's candidates, then replace this root's entries in the two
caches with the freshly computed maps (plain dict assignment,
server.py:193-195).  Returns the updated caches and the result map. -/
def _scan_project_files (fnm : String → String → Bool) (fs : FSModel)
    (caches : ScanCaches) (project_dir : String) (cfg : ScanConfig)
    (walk : List ScanFile) : ScanCaches × List (String × String) :=
  let canonical_proj := canonical_dir fs project_dir
  let prev_mtimes := (lookupA caches._mtime_cache canonical_proj).getD []
  let prev_contents := (lookupA caches._content_cache canonical_proj).getD []
  let st := walk.foldl (scanStep fnm cfg prev_mtimes prev_contents) ⟨[], [], 0⟩
  (⟨dictInsert caches._mtime_cache canonical_proj st.new_mtimes,
    dictInsert caches._content_cache canonical_proj st.result⟩,
   st.result)

/-- A sequence of scans: each element is a `(project_dir, walk)` pair. -/
def runScans (fnm : String → String → Bool) (fs : FSModel) (cfg : ScanConfig) :
    ScanCaches → List (String × List ScanFile) → ScanCaches
  | caches, [] => caches
  | caches, (dir, walk) :: rest =>
    runScans fnm fs cfg (_scan_project_files fnm fs caches dir cfg walk).1 rest

/-! ## Protocol layer (server.py:232-343)

Requests are JSON objects; a field is `none` when the key is absent and
`some .null` when it is present with JSON `null`, so that
`req.get("k") is None` (absent *or* null) and `"k" not in req` (absent
only) are distinguishable, exactly as in the source. -/

/-- JSON scalar values appearing in the `id` / `type` fields. -/
inductive JVal where
  | null
  | str (s : String)
  | num (n : Int)
  | bool (b : Bool)
  deriving DecidableEq, Repr

/-- Python `f"{v}"` rendering, used in the unknown-type error message. -/
def JVal.render : JVal → String
  | .null => "None"
  | .str s => s
  | .num n => toString n
  | .bool b => if b then "True" else "False"

/-- `d.get(k)`-style access on an optional field: collapses an explicit
JSON `null` to `none` (Python `is None` is true for both). -/
def pyGet : Option JVal → Option JVal
  | none => none
  | some .null => none
  | some v => some v

/-- An incoming request, restricted to the fields the router and the
query handler inspect structurally. -/
structure Request where
  id : Option JVal
  type : Option JVal
  deriving DecidableEq, Repr

/-- The opaque result of `session.turn(prompt)` forwarded by the query
handler. -/
structure TurnResult where
  hot : List String
  warm : List String
  cold : List String
  turn_number : Int
  tension : Rat
  cluster_size : Int
  deriving DecidableEq, Repr

/-- Response payloads: empty object, error object, or forwarded turn
result. -/
inductive Payload where
  | empty
  | err (error_message : String)
  | result (r : TurnResult)
  deriving DecidableEq, Repr

/-- An outgoing response (`timing_ms` is attached later by the
connection handler and is not modelled). -/
structure Response where
  id : JVal
  rtype : String
  payload : Payload
  deriving DecidableEq, Repr

/-- `_error_response` (server.py:232-233). -/
def _error_response (request_id : JVal) (message : String) : Response :=
  ⟨request_id, "error", .err message⟩

/-- `_handle_ping` (server.py:236-237); `req["id"]` is only read on
router-dispatched requests, where it is present. -/
def _handle_ping (req : Request) : Response :=
  ⟨req.id.getD .null, "pong", .empty⟩

/-- `_handle_update` (server.py:310-312). -/
def _handle_update (req : Request) : Response :=
  ⟨req.id.getD .null, "result", .empty⟩

/-- `_handle_query` (server.py:240-307).  The try-block body
(scan → lock → session → inject → boost → `turn` → `save`,
server.py:264-287) is the parameter `pipeline`: it returns
`.error msg` when any step of that pipeline raises an exception with
message `msg`, and `.ok r` when `session.turn` returns `r`.  The
`except Exception` handler (server.py:301-307) converts the error into
an error response carrying `req["id"]`. -/
def _handle_query (pipeline : Request → Except String TurnResult)
    (req : Request) : Response :=
  match req.id with
  | none => _error_response (.str "unknown") "Missing 'id' field"
  | some rid =>
    match req.type with
    | none => _error_response rid "Missing 'type' field"
    | some _ =>
      match pipeline req with
      | .ok r => ⟨rid, "result", .result r⟩
      | .error e => ⟨rid, "error", .err e⟩

/-- `route_request` (server.py:322-343).  The `_HANDLERS` dict lookup
is the chain of string comparisons; `shutdown` is special-cased before
it, exactly as in the source. -/
def route_request (pipeline : Request → Except String TurnResult)
    (req : Request) : Response :=
  match pyGet req.id with
  | none => _error_response (.str "unknown") "Missing 'id' field"
  | some req_id =>
    match pyGet req.type with
    | none => _error_response req_id "Missing 'type' field"
    | some req_type =>
      if req_type = .str "shutdown" then ⟨req_id, "result", .empty⟩
      else if req_type = .str "ping" then _handle_ping req
      else if req_type = .str "query" then _handle_query pipeline req
      else if req_type = .str "update" then _handle_update req
      else _error_response req_id ("Unknown request type: " ++ req_type.render)

/-! ## Helper lemmas -/

theorem pyGet_eq_some {o : Option JVal} {v : JVal} (h : pyGet o = some v) :
    o = some v ∧ v ≠ JVal.null := by
  match o with
  | none => simp [pyGet] at h
  | some .null => simp [pyGet] at h
  | some (.str s) => simp [pyGet] at h; simp [← h]
  | some (.num n) => simp [pyGet] at h; simp [← h]
  | some (.bool b) => simp [pyGet] at h; simp [← h]

/-! ## Claim theorems -/

/-- C8: `_canonical_dir` is idempotent and maps the empty string to the
empty string (never to the current directory), and both `_cache_key`
components are built from this same canonical form — given that the
underlying filesystem primitives behave as `os.path.realpath` /
`os.path.expanduser` do on a fixed filesystem (`realpath` is idempotent
and its absolute output is untouched by `expanduser`). -/
theorem canonical_dir_idempotent (fs : FSModel)
    (hreal : ∀ s, fs.realpath (fs.realpath s) = fs.realpath s)
    (hexp : ∀ s, fs.expanduser (fs.realpath s) = fs.realpath s) :
    (∀ p, canonical_dir fs (canonical_dir fs p) = canonical_dir fs p) ∧
    canonical_dir fs "" = "" ∧
    (∀ cd pd, cache_key fs cd pd = (canonical_dir fs cd, canonical_dir fs pd)) := by
  refine ⟨?_, rfl, fun cd pd => rfl⟩
  intro p
  by_cases hp : p = ""
  · simp [canonical_dir, hp]
  · simp only [canonical_dir, hp, if_false]
    by_cases hc : fs.realpath (fs.expanduser p) = ""
    · simp [hc]
    · simp [hc, hexp, hreal]

/-- Witness for C8 at a concrete filesystem and path. -/
theorem canonical_dir_idempotent_witness :
    canonical_dir idFS (canonical_dir idFS "/a") = canonical_dir idFS "/a" ∧
    canonical_dir idFS "" = "" := by
  have h := canonical_dir_idempotent idFS (fun s => rfl) (fun s => rfl)
  exact ⟨h.1 "/a", h.2.1⟩

/-- C4: any exception raised inside the query pipeline (scan, session
creation, injection, boost, `turn`, `save` — the whole try-block body)
is converted by `_handle_query` into an error response that carries the
exception's message and echoes the request's id; it never propagates
(`_handle_query` is a total function into `Response`). -/
theorem handle_query_catches_pipeline_errors
    (pipeline : Request → Except String TurnResult) (req : Request)
    (rid t : JVal) (e : String)
    (hid : req.id = some rid) (hty : req.type = some t)
    (hp : pipeline req = .error e) :
    _handle_query pipeline req = ⟨rid, "error", Payload.err e⟩ := by
  simp [_handle_query, hid, hty, hp]

/-- Witness for C4: a pipeline that always raises. -/
theorem handle_query_catches_pipeline_errors_witness :
    _handle_query (fun _ => .error "boom") ⟨some (.str "7"), some (.str "query")⟩ =
      ⟨.str "7", "error", Payload.err "boom"⟩ :=
  handle_query_catches_pipeline_errors (fun _ => .error "boom")
    ⟨some (.str "7"), some (.str "query")⟩ (.str "7") (.str "query") "boom" rfl rfl rfl

/-- C10: whenever the router actually dispatches a request to the query
handler (its `id` and `type` are present and non-null, which is what
`req.get(...) is not None` guarantees), `_handle_query`'s own
missing-`id` / missing-`type` error branches are dead: the handler
reduces directly to its post-validation body. -/
theorem handle_query_validation_unreachable
    (pipeline : Request → Except String TurnResult) (req : Request)
    (rid t : JVal)
    (hid : pyGet req.id = some rid) (hty : pyGet req.type = some t) :
    _handle_query pipeline req =
      (match pipeline req with
       | .ok r => ⟨rid, "result", Payload.result r⟩
       | .error e => ⟨rid, "error", Payload.err e⟩) := by
  obtain ⟨hid2, -⟩ := pyGet_eq_some hid
  obtain ⟨hty2, -⟩ := pyGet_eq_some hty
  simp [_handle_query, hid2, hty2]

/-- Witness for C10 at a concrete dispatched request. -/
theorem handle_query_validation_unreachable_witness :
    _handle_query (fun _ => .error "x") ⟨some (.str "3"), some (.str "query")⟩ =
      ⟨.str "3", "error", Payload.err "x"⟩ :=
  handle_query_validation_unreachable (fun _ => .error "x")
    ⟨some (.str "3"), some (.str "query")⟩ (.str "3") (.str "query") rfl rfl

/-- C5: `route_request`'s complete case analysis — missing/null `id`
answers with id `"unknown"`; missing/null `type` answers with the given
id; `shutdown` yields an immediate empty-payload result; the known
types `ping`, `query`, `update` are dispatched to their handlers; any
other type yields an error citing the unrecognized type. -/
theorem route_request_cases
    (pipeline : Request → Except String TurnResult) (req : Request) :
    (pyGet req.id = none →
      route_request pipeline req = _error_response (.str "unknown") "Missing 'id' field") ∧
    (∀ rid, pyGet req.id = some rid → pyGet req.type = none →
      route_request pipeline req = _error_response rid "Missing 'type' field") ∧
    (∀ rid, pyGet req.id = some rid → pyGet req.type = some (.str "shutdown") →
      route_request pipeline req = ⟨rid, "result", Payload.empty⟩) ∧
    (∀ rid, pyGet req.id = some rid → pyGet req.type = some (.str "ping") →
      route_request pipeline req = _handle_ping req) ∧
    (∀ rid, pyGet req.id = some rid → pyGet req.type = some (.str "query") →
      route_request pipeline req = _handle_query pipeline req) ∧
    (∀ rid, pyGet req.id = some rid → pyGet req.type = some (.str "update") →
      route_request pipeline req = _handle_update req) ∧
    (∀ rid t, pyGet req.id = some rid → pyGet req.type = some t →
      t ∉ [JVal.str "shutdown", .str "ping", .str "query", .str "update"] →
      route_request pipeline req =
        _error_response rid ("Unknown request type: " ++ t.render)) := by
  refine ⟨fun h => by simp [route_request, h],
          fun rid h1 h2 => by simp [route_request, h1, h2],
          fun rid h1 h2 => by simp [route_request, h1, h2],
          fun rid h1 h2 => by simp [route_request, h1, h2],
          fun rid h1 h2 => by simp [route_request, h1, h2],
          fun rid h1 h2 => by simp [route_request, h1, h2],
          fun rid t h1 h2 hne => ?_⟩
  simp only [List.mem_cons, List.not_mem_nil, or_false, not_or] at hne
  obtain ⟨n1, n2, n3, n4⟩ := hne
  simp [route_request, h1, h2, n1, n2, n3, n4]

/-- Witness for C5: each routing case evaluated at a concrete request. -/
theorem route_request_cases_witness :
    route_request (fun _ => .error "x") ⟨none, some (.str "ping")⟩ =
      _error_response (.str "unknown") "Missing 'id' field" ∧
    route_request (fun _ => .error "x") ⟨some (.str "5"), none⟩ =
      _error_response (.str "5") "Missing 'type' field" ∧
    route_request (fun _ => .error "x") ⟨some (.str "9"), some (.str "shutdown")⟩ =
      ⟨.str "9", "result", Payload.empty⟩ ∧
    route_request (fun _ => .error "x") ⟨some (.str "1"), some (.str "ping")⟩ =
      ⟨.str "1", "pong", Payload.empty⟩ ∧
    route_request (fun _ => .error "x") ⟨some (.str "2"), some (.str "query")⟩ =
      ⟨.str "2", "error", Payload.err "x"⟩ ∧
    route_request (fun _ => .error "x") ⟨some (.str "4"), some (.str "update")⟩ =
      ⟨.str "4", "result", Payload.empty⟩ ∧
    route_request (fun _ => .error "x") ⟨some (.str "6"), some (.str "bogus")⟩ =
      _error_response (.str "6") "Unknown request type: bogus" := by
  refine ⟨(route_request_cases (fun _ => .error "x") ⟨none, some (.str "ping")⟩).1 rfl,
    (route_request_cases (fun _ => .error "x") ⟨some (.str "5"), none⟩).2.1 (.str "5") rfl rfl,
    (route_request_cases (fun _ => .error "x") ⟨some (.str "9"), some (.str "shutdown")⟩).2.2.1
      (.str "9") rfl rfl,
    ?_, ?_, ?_, ?_⟩
  · rw [(route_request_cases (fun _ => .error "x") ⟨some (.str "1"), some (.str "ping")⟩).2.2.2.1
      (.str "1") rfl rfl]
    rfl
  · rw [(route_request_cases (fun _ => .error "x") ⟨some (.str "2"), some (.str "query")⟩).2.2.2.2.1
      (.str "2") rfl rfl]
    rfl
  · rw [(route_request_cases (fun _ => .error "x")
      ⟨some (.str "4"), some (.str "update")⟩).2.2.2.2.2.1 (.str "4") rfl rfl]
    rfl
  · exact (route_request_cases (fun _ => .error "x")
      ⟨some (.str "6"), some (.str "bogus")⟩).2.2.2.2.2.2 (.str "6") (.str "bogus") rfl rfl
      (by decide)

/-! ## C1: the project-scan cache has no eviction at all -/

/-- Twelve distinct canonical project roots. -/
def roots12 : List (String × List ScanFile) :=
  [("/r0", []), ("/r1", []), ("/r2", []), ("/r3", []), ("/r4", []), ("/r5", []),
   ("/r6", []), ("/r7", []), ("/r8", []), ("/r9", []), ("/r10", []), ("/r11", [])]

/-- C1: evaluating `_scan_project_files`'s cache bookkeeping
(server.py:193-195) at the claim's own concrete input: after scanning
12 distinct project roots, *all twelve* roots are still cached — the
caches are plain dicts with no eviction, so the first two roots are not
evicted and the size bound 10 is exceeded.  This contradicts the
strict-LRU-at-10 behavior that `test_cache_eviction.py` asserts (that
test even imports `_MAX_CACHE_PROJECTS`, a constant `server.py` does
not define). -/
theorem scan_cache_has_no_eviction :
    (runScans (fun s p => s = p) idFS {} ⟨[], []⟩ roots12)._mtime_cache.length = 12 ∧
    (runScans (fun s p => s = p) idFS {} ⟨[], []⟩ roots12)._content_cache.length = 12 ∧
    memA (runScans (fun s p => s = p) idFS {} ⟨[], []⟩ roots12)._mtime_cache "/r0" = true ∧
    memA (runScans (fun s p => s = p) idFS {} ⟨[], []⟩ roots12)._mtime_cache "/r1" = true := by
  refine ⟨by decide, by decide, by decide, by decide⟩

/-! ## C9: the stored mtime and content maps are not parallel -/

/-- C9 counterexample: one kept file whose `getmtime` succeeds but whose
read raises `OSError`.  The scan records its mtime (server.py:173)
before attempting the read (server.py:179-184), so the stored mtime map
contains the key while the stored content map does not: the two maps do
not hold the same key set. -/
theorem scan_maps_not_parallel_cex :
    memA ((lookupA (_scan_project_files (fun s p => s = p) idFS ⟨[], []⟩ "/p"
        ⟨["a.md"], [], 200⟩ [⟨"a.md", some 1, none⟩]).1._mtime_cache "/p").getD [])
        "project:a.md" = true ∧
    memA ((lookupA (_scan_project_files (fun s p => s = p) idFS ⟨[], []⟩ "/p"
        ⟨["a.md"], [], 200⟩ [⟨"a.md", some 1, none⟩]).1._content_cache "/p").getD [])
        "project:a.md" = false := by
  exact ⟨by decide, by decide⟩

/-- C7: inside `_scan_project_files`, a kept file (count below the cap,
matching an include pattern, matching no exclude pattern) whose
`getmtime` value coincides with the cached mtime for its logical key,
and for which cached content exists, is served that cached content —
and the outcome of the file read (`readOf`) is never consulted, so a
file whose content changed while its reported mtime did not is served
its stale cached content. -/
theorem scan_serves_cached_content (fnm : String → String → Bool)
    (cfg : ScanConfig) (prev_mtimes : List (String × Nat))
    (prev_contents : List (String × String)) (st : ScanState) (f : ScanFile)
    (m : Nat) (c : String)
    (hcount : st.file_count < cfg.max_files)
    (hinc : _matches_any fnm f.rel cfg.patterns = true)
    (hexc : _matches_any fnm f.rel cfg.excludes = false)
    (hmt : f.mtimeOf = some m)
    (hprev : lookupA prev_mtimes ("project:" ++ f.rel) = some m)
    (hct : lookupA prev_contents ("project:" ++ f.rel) = some c) :
    lookupA (scanStep fnm cfg prev_mtimes prev_contents st f).result
      ("project:" ++ f.rel) = some c ∧
    ∀ r, scanStep fnm cfg prev_mtimes prev_contents st { f with readOf := r } =
         scanStep fnm cfg prev_mtimes prev_contents st f := by
  have h1 : ¬ (st.file_count ≥ cfg.max_files) := not_le.mpr hcount
  constructor
  · simp [scanStep, h1, hinc, hexc, hmt, hprev, hct, lookupA_dictInsert_self]
  · intro r
    simp [scanStep, h1, hinc, hexc, hmt, hprev, hct]

/-- Witness for C7: a file whose cached content is `"OLD"` and whose
current on-disk content is `"NEW"`, with an unchanged mtime. -/
theorem scan_serves_cached_content_witness :
    lookupA (scanStep (fun s p => s = p) ⟨["a.md"], [], 200⟩
        [("project:a.md", 5)] [("project:a.md", "OLD")]
        ⟨[], [], 0⟩ ⟨"a.md", some 5, some "NEW"⟩).result "project:a.md" = some "OLD" :=
  (scan_serves_cached_content (fun s p => s = p) ⟨["a.md"], [], 200⟩
    [("project:a.md", 5)] [("project:a.md", "OLD")] ⟨[], [], 0⟩
    ⟨"a.md", some 5, some "NEW"⟩ 5 "OLD" (by decide) (by decide) (by decide)
    rfl (by decide) (by decide)).1

/-! ## C9 amended: content keys are a subset of mtime keys -/

/-- `scanStep` does one of three things to the state: nothing (skipped
file), record an mtime and a content together, or — when the cache
misses and the read fails — record an mtime alone. -/
theorem scanStep_cases (fnm : String → String → Bool) (cfg : ScanConfig)
    (prev_mtimes : List (String × Nat)) (prev_contents : List (String × String))
    (st : ScanState) (f : ScanFile) :
    scanStep fnm cfg prev_mtimes prev_contents st f = st ∨
    (∃ mtime content,
      scanStep fnm cfg prev_mtimes prev_contents st f =
        ⟨dictInsert st.new_mtimes ("project:" ++ f.rel) mtime,
         dictInsert st.result ("project:" ++ f.rel) content,
         st.file_count + 1⟩) ∨
    (∃ mtime, f.readOf = none ∧
      scanStep fnm cfg prev_mtimes prev_contents st f =
        ⟨dictInsert st.new_mtimes ("project:" ++ f.rel) mtime,
         st.result, st.file_count⟩) := by
  unfold scanStep
  split
  · exact Or.inl rfl
  split
  · exact Or.inl rfl
  split
  · exact Or.inl rfl
  split
  · exact Or.inl rfl
  next mtime hmt =>
    split
    · next content hc => exact Or.inr (Or.inl ⟨mtime, content, rfl⟩)
    · split
      · next hr => exact Or.inr (Or.inr ⟨mtime, hr, rfl⟩)
      · next content hr => exact Or.inr (Or.inl ⟨mtime, content, rfl⟩)

theorem scanStep_result_subset (fnm : String → String → Bool) (cfg : ScanConfig)
    (prev_mtimes : List (String × Nat)) (prev_contents : List (String × String))
    (st : ScanState) (f : ScanFile)
    (hinv : ∀ k, memA st.result k = true → memA st.new_mtimes k = true) :
    ∀ k, memA (scanStep fnm cfg prev_mtimes prev_contents st f).result k = true →
         memA (scanStep fnm cfg prev_mtimes prev_contents st f).new_mtimes k = true := by
  intro k
  rcases scanStep_cases fnm cfg prev_mtimes prev_contents st f with
    h | ⟨mtime, content, h⟩ | ⟨mtime, -, h⟩ <;> rw [h]
  · exact hinv k
  · simp only [memA_dictInsert, Bool.or_eq_true, decide_eq_true_eq]
    rintro (rfl | hk)
    · exact Or.inl rfl
    · exact Or.inr (hinv k hk)
  · intro hk
    simp only [memA_dictInsert, Bool.or_eq_true]
    exact Or.inr (hinv k hk)

theorem scanStep_keys_eq (fnm : String → String → Bool) (cfg : ScanConfig)
    (prev_mtimes : List (String × Nat)) (prev_contents : List (String × String))
    (st : ScanState) (f : ScanFile) (hread : f.readOf ≠ none)
    (hinv : ∀ k, memA st.result k = memA st.new_mtimes k) :
    ∀ k, memA (scanStep fnm cfg prev_mtimes prev_contents st f).result k =
         memA (scanStep fnm cfg prev_mtimes prev_contents st f).new_mtimes k := by
  intro k
  rcases scanStep_cases fnm cfg prev_mtimes prev_contents st f with
    h | ⟨mtime, content, h⟩ | ⟨mtime, hr, h⟩
  · rw [h]; exact hinv k
  · rw [h]
    simp [memA_dictInsert, hinv k]
  · exact absurd hr hread

theorem scanFold_result_subset (fnm : String → String → Bool) (cfg : ScanConfig)
    (prev_mtimes : List (String × Nat)) (prev_contents : List (String × String)) :
    ∀ (walk : List ScanFile) (st : ScanState),
    (∀ k, memA st.result k = true → memA st.new_mtimes k = true) →
    ∀ k, memA (walk.foldl (scanStep fnm cfg prev_mtimes prev_contents) st).result k = true →
         memA (walk.foldl (scanStep fnm cfg prev_mtimes prev_contents) st).new_mtimes k = true := by
  intro walk
  induction walk with
  | nil => intro st hinv; exact hinv
  | cons f rest ih =>
    intro st hinv
    exact ih _ (scanStep_result_subset fnm cfg prev_mtimes prev_contents st f hinv)

theorem scanFold_keys_eq (fnm : String → String → Bool) (cfg : ScanConfig)
    (prev_mtimes : List (String × Nat)) (prev_contents : List (String × String)) :
    ∀ (walk : List ScanFile) (st : ScanState),
    (∀ f ∈ walk, f.readOf ≠ none) →
    (∀ k, memA st.result k = memA st.new_mtimes k) →
    ∀ k, memA (walk.foldl (scanStep fnm cfg prev_mtimes prev_contents) st).result k =
         memA (walk.foldl (scanStep fnm cfg prev_mtimes prev_contents) st).new_mtimes k := by
  intro walk
  induction walk with
  | nil => intro st _ hinv; exact hinv
  | cons f rest ih =>
    intro st hall hinv
    exact ih _ (fun g hg => hall g (List.mem_cons_of_mem f hg))
      (scanStep_keys_eq fnm cfg prev_mtimes prev_contents st f
        (hall f (List.mem_cons_self f rest)) hinv)

/-- C9 amended: after every completed scan of a root, every key of the
stored content map also appears in the stored mtime map (with the same
key set whenever no kept file's read failed) — but the converse is
false in general: a file whose `getmtime` succeeds and whose read then
fails leaves an mtime entry with no content entry
(`scan_maps_not_parallel_cex`). -/
theorem scan_maps_content_subset_mtimes (fnm : String → String → Bool)
    (fs : FSModel) (caches : ScanCaches) (project_dir : String)
    (cfg : ScanConfig) (walk : List ScanFile) :
    (∀ k, memA ((lookupA (_scan_project_files fnm fs caches project_dir cfg walk).1._content_cache
          (canonical_dir fs project_dir)).getD []) k = true →
        memA ((lookupA (_scan_project_files fnm fs caches project_dir cfg walk).1._mtime_cache
          (canonical_dir fs project_dir)).getD []) k = true) ∧
    ((∀ f ∈ walk, f.readOf ≠ none) →
      ∀ k, memA ((lookupA (_scan_project_files fnm fs caches project_dir cfg walk).1._content_cache
            (canonical_dir fs project_dir)).getD []) k =
          memA ((lookupA (_scan_project_files fnm fs caches project_dir cfg walk).1._mtime_cache
            (canonical_dir fs project_dir)).getD []) k) := by
  unfold _scan_project_files
  simp only [lookupA_dictInsert_self, Option.getD_some]
  constructor
  · exact scanFold_result_subset fnm cfg _ _ walk ⟨[], [], 0⟩ (by intro k h; simp [memA, lookupA] at h)
  · intro hall
    exact scanFold_keys_eq fnm cfg _ _ walk ⟨[], [], 0⟩ hall (fun k => rfl)

/-- Witness for C9's amended claim at a concrete scan whose reads all
succeed. -/
theorem scan_maps_content_subset_mtimes_witness :
    memA ((lookupA (_scan_project_files (fun s p => s = p) idFS ⟨[], []⟩ "/p"
        ⟨["a.md"], [], 200⟩ [⟨"a.md", some 1, some "x"⟩]).1._content_cache "/p").getD [])
      "project:a.md" =
    memA ((lookupA (_scan_project_files (fun s p => s = p) idFS ⟨[], []⟩ "/p"
        ⟨["a.md"], [], 200⟩ [⟨"a.md", some 1, some "x"⟩]).1._mtime_cache "/p").getD [])
      "project:a.md" := by
  exact (scan_maps_content_subset_mtimes (fun s p => s = p) idFS ⟨[], []⟩ "/p"
    ⟨["a.md"], [], 200⟩ [⟨"a.md", some 1, some "x"⟩]).2
    (by intro f hf; simp at hf; simp [hf]) "project:a.md"

/-! ## C6: boost floors are monotone -/

theorem boostOne_lookup_mono (s : Session) (bf : String) {k : String} {f : FileRec}
    (h : lookupA s.files k = some f) :
    ∃ f1, lookupA (boostOne s bf).files k = some f1 ∧
      f.raw_pressure ≤ f1.raw_pressure ∧ f.pressure_bucket ≤ f1.pressure_bucket := by
  unfold boostOne
  cases hg : lookupA s.files (boostKey bf) with
  | none => exact ⟨f, h, le_refl _, le_refl _⟩
  | some g =>
    by_cases hk : boostKey bf = k
    · subst hk
      rw [h] at hg
      injection hg with hg
      subst hg
      refine ⟨boostRec f, ?_, le_max_left _ _, le_max_left _ _⟩
      exact lookupA_updateA_self (by simp [memA, h])
    · exact ⟨f, by rw [lookupA_updateA_ne hk]; exact h, le_refl _, le_refl _⟩

theorem boostOne_lookup_self (s : Session) (bf : String) {f : FileRec}
    (h : lookupA s.files (boostKey bf) = some f) :
    lookupA (boostOne s bf).files (boostKey bf) = some (boostRec f) := by
  unfold boostOne
  rw [h]
  exact lookupA_updateA_self (by simp [memA, h])

theorem applyBoost_lookup_mono :
    ∀ (bfs : List String) (s : Session) {k : String} {f : FileRec},
    lookupA s.files k = some f →
    ∃ f2, lookupA (applyBoost s bfs).files k = some f2 ∧
      f.raw_pressure ≤ f2.raw_pressure ∧ f.pressure_bucket ≤ f2.pressure_bucket
  | [], _, _, f, h => ⟨f, h, le_refl _, le_refl _⟩
  | bf :: rest, s, k, f, h => by
    obtain ⟨f1, h1, hr1, hb1⟩ := boostOne_lookup_mono s bf h
    obtain ⟨f2, h2, hr2, hb2⟩ := applyBoost_lookup_mono rest (boostOne s bf) h1
    exact ⟨f2, h2, le_trans hr1 hr2, le_trans hb1 hb2⟩

theorem applyBoost_floor :
    ∀ (bfs : List String) (s : Session) (bf : String) {f : FileRec},
    bf ∈ bfs → lookupA s.files (boostKey bf) = some f →
    ∃ f2, lookupA (applyBoost s bfs).files (boostKey bf) = some f2 ∧
      (6/10 : Rat) ≤ f2.raw_pressure ∧ (30 : Int) ≤ f2.pressure_bucket
  | [], _, _, _, hmem, _ => absurd hmem (List.not_mem_nil _)
  | b :: rest, s, bf, f, hmem, h => by
    by_cases hb : b = bf
    · subst hb
      have h1 := boostOne_lookup_self s b h
      obtain ⟨f2, h2, hr2, hb2⟩ := applyBoost_lookup_mono rest (boostOne s b) h1
      refine ⟨f2, h2, le_trans (le_max_right _ _) hr2, le_trans (le_max_right _ _) hb2⟩
    · have hmem2 : bf ∈ rest := by
        rcases List.mem_cons.mp hmem with h0 | h0
        · exact absurd h0.symm hb
        · exact h0
      obtain ⟨f1, h1, -, -⟩ := boostOne_lookup_mono s b h
      exact applyBoost_floor rest (boostOne s b) bf hmem2 h1

/-- C6: for every caller-supplied boost identifier — if its logical key
is absent from the session's file table, that identifier leaves the
session unchanged; every present key's pressure fields are never
decreased by the boost pass; and every identifier whose key is present
ends the pass with `raw_pressure ≥ 0.6` and `pressure_bucket ≥ 30`. -/
theorem boost_monotone_floor (s : Session) (bfs : List String) :
    (∀ bf, lookupA s.files (boostKey bf) = none → boostOne s bf = s) ∧
    (∀ k f, lookupA s.files k = some f →
      ∃ f2, lookupA (applyBoost s bfs).files k = some f2 ∧
        f.raw_pressure ≤ f2.raw_pressure ∧ f.pressure_bucket ≤ f2.pressure_bucket) ∧
    (∀ bf f, bf ∈ bfs → lookupA s.files (boostKey bf) = some f →
      ∃ f2, lookupA (applyBoost s bfs).files (boostKey bf) = some f2 ∧
        (6/10 : Rat) ≤ f2.raw_pressure ∧ (30 : Int) ≤ f2.pressure_bucket) := by
  refine ⟨fun bf h => ?_, fun k f h => applyBoost_lookup_mono bfs s h,
          fun bf f hmem h => applyBoost_floor bfs s bf hmem h⟩
  unfold boostOne
  rw [h]

/-- Witness for C6: an absent identifier leaves the table unchanged; a
present one is floored to 0.6 / 30. -/
theorem boost_monotone_floor_witness :
    boostOne ⟨"/a", [("project:x.md", ⟨"hi", 1/10, 5⟩)]⟩ "y.md" =
      ⟨"/a", [("project:x.md", ⟨"hi", 1/10, 5⟩)]⟩ ∧
    ∃ f2, lookupA (applyBoost ⟨"/a", [("project:x.md", ⟨"hi", 1/10, 5⟩)]⟩
        ["x.md"]).files (boostKey "x.md") = some f2 ∧
      (6/10 : Rat) ≤ f2.raw_pressure ∧ (30 : Int) ≤ f2.pressure_bucket := by
  refine ⟨(boost_monotone_floor ⟨"/a", [("project:x.md", ⟨"hi", 1/10, 5⟩)]⟩ ["x.md"]).1
      "y.md" rfl,
    (boost_monotone_floor ⟨"/a", [("project:x.md", ⟨"hi", 1/10, 5⟩)]⟩ ["x.md"]).2.2
      "x.md" ⟨"hi", 1/10, 5⟩ (List.mem_singleton.mpr rfl) rfl⟩

/-! ## C2: bootstrap exactly once -/

theorem injectLoop_cons_some (eng : EngineOps) (files : List (String × FileRec))
    (k c : String) (rest : List (String × String)) (old : FileRec)
    (h : lookupA files k = some old) :
    injectLoop eng files ((k, c) :: rest) =
      injectLoop eng
        (if old.content ≠ c then updateA files k (eng.updRec old c) else files) rest := by
  simp only [injectLoop, h]

theorem injectLoop_cons_none (eng : EngineOps) (files : List (String × FileRec))
    (k c : String) (rest : List (String × String))
    (h : lookupA files k = none) :
    injectLoop eng files ((k, c) :: rest) =
      ((injectLoop eng (files ++ [(k, eng.addRec c)]) rest).1,
       k :: (injectLoop eng (files ++ [(k, eng.addRec c)]) rest).2) := by
  simp only [injectLoop, h]

theorem injectLoop_lookup_not_mem (eng : EngineOps) :
    ∀ (pf : List (String × String)) (files : List (String × FileRec)) (k : String),
    k ∉ pf.map Prod.fst →
    lookupA (injectLoop eng files pf).1 k = lookupA files k := by
  intro pf
  induction pf with
  | nil => intro files k _; rfl
  | cons e rest ih =>
    intro files k hk
    obtain ⟨k1, c1⟩ := e
    simp only [List.map_cons, List.mem_cons, not_or] at hk
    obtain ⟨hk1, hkrest⟩ := hk
    have hne : k1 ≠ k := fun h => hk1 h.symm
    cases ho : lookupA files k1 with
    | some old =>
      rw [injectLoop_cons_some eng files k1 c1 rest old ho, ih _ k hkrest]
      by_cases hc : old.content ≠ c1
      · rw [if_pos hc, lookupA_updateA_ne hne]
      · rw [if_neg hc]
    | none =>
      rw [injectLoop_cons_none eng files k1 c1 rest ho]
      simp only []
      rw [ih _ k hkrest, lookupA_append_singleton_ne hne]

theorem injectLoop_newly_sub (eng : EngineOps) :
    ∀ (pf : List (String × String)) (files : List (String × FileRec)),
    (injectLoop eng files pf).2 ⊆ pf.map Prod.fst := by
  intro pf
  induction pf with
  | nil => intro files x hx; simp [injectLoop] at hx
  | cons e rest ih =>
    intro files x hx
    obtain ⟨k1, c1⟩ := e
    cases ho : lookupA files k1 with
    | some old =>
      rw [injectLoop_cons_some eng files k1 c1 rest old ho] at hx
      exact List.mem_cons_of_mem _ (ih _ hx)
    | none =>
      rw [injectLoop_cons_none eng files k1 c1 rest ho] at hx
      simp only [List.mem_cons] at hx
      rcases hx with rfl | hx
      · exact List.mem_cons_self _ _
      · exact List.mem_cons_of_mem _ (ih _ hx)

theorem injectLoop_not_newly (eng : EngineOps) :
    ∀ (pf : List (String × String)) (files : List (String × FileRec)) (k : String),
    memA files k = true → k ∉ (injectLoop eng files pf).2 := by
  intro pf
  induction pf with
  | nil => intro files k _ hx; simp [injectLoop] at hx
  | cons e rest ih =>
    intro files k hm
    obtain ⟨k1, c1⟩ := e
    cases ho : lookupA files k1 with
    | some old =>
      rw [injectLoop_cons_some eng files k1 c1 rest old ho]
      by_cases hc : old.content ≠ c1
      · rw [if_pos hc]
        exact ih _ k (by rw [memA_updateA]; exact hm)
      · rw [if_neg hc]
        exact ih _ k hm
    | none =>
      have hne : k1 ≠ k := by
        intro heq
        rw [heq] at ho
        simp [memA, ho] at hm
      rw [injectLoop_cons_none eng files k1 c1 rest ho]
      intro hx
      rcases List.mem_cons.mp hx with rfl | hx
      · exact hne rfl
      · exact ih _ k (memA_append_left _ hm) hx

theorem injectLoop_newly_nodup (eng : EngineOps) :
    ∀ (pf : List (String × String)) (files : List (String × FileRec)),
    (pf.map Prod.fst).Nodup → (injectLoop eng files pf).2.Nodup := by
  intro pf
  induction pf with
  | nil => intro files _; simp [injectLoop]
  | cons e rest ih =>
    intro files hnd
    obtain ⟨k1, c1⟩ := e
    simp only [List.map_cons, List.nodup_cons] at hnd
    obtain ⟨hk1, hndrest⟩ := hnd
    cases ho : lookupA files k1 with
    | some old =>
      rw [injectLoop_cons_some eng files k1 c1 rest old ho]
      exact ih _ hndrest
    | none =>
      rw [injectLoop_cons_none eng files k1 c1 rest ho]
      exact List.nodup_cons.mpr
        ⟨fun hx => hk1 (injectLoop_newly_sub eng rest _ hx), ih _ hndrest⟩

theorem injectLoop_lookup_present (eng : EngineOps) :
    ∀ (pf : List (String × String)) (files : List (String × FileRec))
      (k c : String) (old : FileRec),
    (pf.map Prod.fst).Nodup → (k, c) ∈ pf → lookupA files k = some old →
    lookupA (injectLoop eng files pf).1 k =
      some (if old.content = c then old else eng.updRec old c) := by
  intro pf
  induction pf with
  | nil => intro files k c old _ hmem _; simp at hmem
  | cons e rest ih =>
    intro files k c old hnd hmem h
    obtain ⟨k1, c1⟩ := e
    simp only [List.map_cons, List.nodup_cons] at hnd
    obtain ⟨hk1, hndrest⟩ := hnd
    by_cases hk : k1 = k
    · subst hk
      have hc1 : c1 = c := by
        rcases List.mem_cons.mp hmem with heq | hmem2
        · exact (congrArg Prod.snd heq).symm
        · exact absurd (List.mem_map.mpr ⟨(k1, c), hmem2, rfl⟩) hk1
      subst hc1
      rw [injectLoop_cons_some eng files k1 c1 rest old h,
          injectLoop_lookup_not_mem eng rest _ k1 hk1]
      by_cases hc : old.content = c1
      · rw [if_neg (by simpa using hc), if_pos hc]
        exact h
      · rw [if_pos (by simpa using hc), if_neg hc]
        exact lookupA_updateA_self (by simp [memA, h])
    · have hne : k1 ≠ k := hk
      have hmem2 : (k, c) ∈ rest := by
        rcases List.mem_cons.mp hmem with heq | hmem2
        · exact absurd (congrArg Prod.fst heq).symm hne
        · exact hmem2
      cases ho : lookupA files k1 with
      | some o1 =>
        rw [injectLoop_cons_some eng files k1 c1 rest o1 ho]
        by_cases hc : o1.content ≠ c1
        · rw [if_pos hc]
          exact ih _ k c old hndrest hmem2 (by rw [lookupA_updateA_ne hne]; exact h)
        · rw [if_neg hc]
          exact ih _ k c old hndrest hmem2 h
      | none =>
        rw [injectLoop_cons_none eng files k1 c1 rest ho]
        simp only []
        exact ih _ k c old hndrest hmem2
          (by rw [lookupA_append_singleton_ne hne]; exact h)

theorem injectLoop_lookup_absent (eng : EngineOps) :
    ∀ (pf : List (String × String)) (files : List (String × FileRec)) (k c : String),
    (pf.map Prod.fst).Nodup → (k, c) ∈ pf → memA files k = false →
    lookupA (injectLoop eng files pf).1 k = some (eng.addRec c) ∧
    k ∈ (injectLoop eng files pf).2 := by
  intro pf
  induction pf with
  | nil => intro files k c _ hmem _; simp at hmem
  | cons e rest ih =>
    intro files k c hnd hmem habs
    obtain ⟨k1, c1⟩ := e
    simp only [List.map_cons, List.nodup_cons] at hnd
    obtain ⟨hk1, hndrest⟩ := hnd
    by_cases hk : k1 = k
    · subst hk
      have hc1 : c1 = c := by
        rcases List.mem_cons.mp hmem with heq | hmem2
        · exact (congrArg Prod.snd heq).symm
        · exact absurd (List.mem_map.mpr ⟨(k1, c), hmem2, rfl⟩) hk1
      subst hc1
      have hnone : lookupA files k1 = none := lookupA_none_of_not_mem habs
      rw [injectLoop_cons_none eng files k1 c1 rest hnone]
      refine ⟨?_, List.mem_cons_self _ _⟩
      rw [injectLoop_lookup_not_mem eng rest _ k1 hk1,
          lookupA_append_right habs]
      simp [lookupA]
    · have hne : k1 ≠ k := hk
      have hmem2 : (k, c) ∈ rest := by
        rcases List.mem_cons.mp hmem with heq | hmem2
        · exact absurd (congrArg Prod.fst heq).symm hne
        · exact hmem2
      cases ho : lookupA files k1 with
      | some o1 =>
        rw [injectLoop_cons_some eng files k1 c1 rest o1 ho]
        by_cases hc : o1.content ≠ c1
        · rw [if_pos hc]
          exact ih _ k c hndrest hmem2 (by rw [memA_updateA]; exact habs)
        · rw [if_neg hc]
          exact ih _ k c hndrest hmem2 habs
      | none =>
        rw [injectLoop_cons_none eng files k1 c1 rest ho]
        have habs2 : memA (files ++ [(k1, eng.addRec c1)]) k = false := by
          simp [memA, lookupA_append_singleton_ne hne,
                lookupA_none_of_not_mem habs]
        obtain ⟨h1, h2⟩ := ih _ k c hndrest hmem2 habs2
        exact ⟨h1, List.mem_cons_of_mem _ h2⟩

theorem bootstrapWarm_cons_none (files : List (String × FileRec)) (k : String)
    (rest : List String) (h : lookupA files k = none) :
    bootstrapWarm files (k :: rest) = bootstrapWarm files rest := by
  simp only [bootstrapWarm, h]

theorem bootstrapWarm_cons_some (files : List (String × FileRec)) (k : String)
    (rest : List String) (f : FileRec) (h : lookupA files k = some f) :
    bootstrapWarm files (k :: rest) =
      bootstrapWarm
        (updateA files k { f with raw_pressure := 45/100, pressure_bucket := 22 }) rest := by
  simp only [bootstrapWarm, h]

theorem bootstrapWarm_not_mem :
    ∀ (ns : List String) (files : List (String × FileRec)) (k : String), k ∉ ns →
    lookupA (bootstrapWarm files ns) k = lookupA files k := by
  intro ns
  induction ns with
  | nil => intro files k _; rfl
  | cons k1 rest ih =>
    intro files k hk
    simp only [List.mem_cons, not_or] at hk
    obtain ⟨hk1, hkrest⟩ := hk
    cases ho : lookupA files k1 with
    | none =>
      rw [bootstrapWarm_cons_none files k1 rest ho]
      exact ih files k hkrest
    | some f =>
      rw [bootstrapWarm_cons_some files k1 rest f ho, ih _ k hkrest,
          lookupA_updateA_ne (fun h => hk1 h.symm)]

theorem bootstrapWarm_mem :
    ∀ (ns : List String) (files : List (String × FileRec)) (k : String) (f : FileRec),
    ns.Nodup → k ∈ ns → lookupA files k = some f →
    lookupA (bootstrapWarm files ns) k =
      some { f with raw_pressure := 45/100, pressure_bucket := 22 } := by
  intro ns
  induction ns with
  | nil => intro files k f _ hk _; simp at hk
  | cons k1 rest ih =>
    intro files k f hnd hk h
    simp only [List.nodup_cons] at hnd
    obtain ⟨hk1, hndrest⟩ := hnd
    by_cases he : k1 = k
    · subst he
      rw [bootstrapWarm_cons_some files k1 rest f h,
          bootstrapWarm_not_mem rest _ k1 hk1]
      exact lookupA_updateA_self (by simp [memA, h])
    · have hk2 : k ∈ rest := by
        rcases List.mem_cons.mp hk with rfl | hk2
        · exact absurd rfl he
        · exact hk2
      cases ho : lookupA files k1 with
      | none =>
        rw [bootstrapWarm_cons_none files k1 rest ho]
        exact ih files k f hndrest hk2 h
      | some g =>
        rw [bootstrapWarm_cons_some files k1 rest g ho]
        exact ih _ k f hndrest hk2 (by rw [lookupA_updateA_ne he]; exact h)

/-- C2: `_inject_project_files` bootstraps exactly once — a key absent
from the session's file table that occurs in the injected map ends the
pass present with `raw_pressure = 0.45` and `pressure_bucket = 22`
(whatever initial record the engine's `add_file` produced); a key
already present is only content-updated through the engine's
`update_file` (when its content differs) and its record is never put
through the bootstrap assignment, even when its content changed. -/
theorem inject_bootstrap_once (eng : EngineOps) (s : Session)
    (pf : List (String × String)) (hnd : (pf.map Prod.fst).Nodup) :
    (∀ k c, (k, c) ∈ pf → memA s.files k = false →
      ∃ f, lookupA (_inject_project_files eng s pf).files k = some f ∧
        f.raw_pressure = 45/100 ∧ f.pressure_bucket = 22) ∧
    (∀ k c old, (k, c) ∈ pf → lookupA s.files k = some old →
      lookupA (_inject_project_files eng s pf).files k =
        some (if old.content = c then old else eng.updRec old c)) := by
  constructor
  · intro k c hmem habs
    obtain ⟨h1, h2⟩ := injectLoop_lookup_absent eng pf s.files k c hnd hmem habs
    refine ⟨{ eng.addRec c with raw_pressure := 45/100, pressure_bucket := 22 }, ?_, rfl, rfl⟩
    unfold _inject_project_files
    exact bootstrapWarm_mem _ _ k (eng.addRec c) (injectLoop_newly_nodup eng pf s.files hnd) h2 h1
  · intro k c old hmem h
    unfold _inject_project_files
    rw [bootstrapWarm_not_mem _ _ k
        (injectLoop_not_newly eng pf s.files k (by simp [memA, h]))]
    exact injectLoop_lookup_present eng pf s.files k c old hnd hmem h

/-- A concrete engine model for evaluating the injection at explicit
inputs: `add_file` stores the content with zeroed pressure, and
`update_file` replaces the content. -/
def idEngine : EngineOps :=
  ⟨fun c => ⟨c, 0, 0⟩, fun f c => { f with content := c }⟩

/-- Witness for C2: a fresh key is bootstrapped to 0.45 / 22; a known
key whose content changed keeps its engine-set pressure (0.9 / 40). -/
theorem inject_bootstrap_once_witness :
    (∃ f, lookupA (_inject_project_files idEngine ⟨"/a", []⟩
        [("project:x.md", "hi")]).files "project:x.md" = some f ∧
      f.raw_pressure = 45/100 ∧ f.pressure_bucket = 22) ∧
    lookupA (_inject_project_files idEngine
        ⟨"/a", [("project:x.md", ⟨"hi", 9/10, 40⟩)]⟩
        [("project:x.md", "bye")]).files "project:x.md" =
      some (if ("hi" : String) = "bye" then (⟨"hi", 9/10, 40⟩ : FileRec)
            else idEngine.updRec ⟨"hi", 9/10, 40⟩ "bye") := by
  constructor
  · exact (inject_bootstrap_once idEngine ⟨"/a", []⟩ [("project:x.md", "hi")]
      (by simp)).1 "project:x.md" "hi" (List.mem_singleton.mpr rfl) rfl
  · exact (inject_bootstrap_once idEngine ⟨"/a", [("project:x.md", ⟨"hi", 9/10, 40⟩)]⟩
      [("project:x.md", "bye")] (by simp)).2 "project:x.md" "bye"
      ⟨"hi", 9/10, 40⟩ (List.mem_singleton.mpr rfl) rfl

/-! ## C3: the session registry is a bounded LRU -/

theorem evictLoop_length_le :
    ∀ (l : List ((String × String) × Session)) (locks : List ((String × String) × Unit)),
    (evictLoop l locks).1.length ≤ _MAX_CACHED_SESSIONS
  | [], locks => by simp [evictLoop, _MAX_CACHED_SESSIONS]
  | e :: rest, locks => by
    unfold evictLoop
    by_cases h : (e :: rest).length > _MAX_CACHED_SESSIONS
    · rw [if_pos h]
      exact evictLoop_length_le rest _
    · rw [if_neg h]
      exact Nat.le_of_not_lt h

theorem evictLoop_of_le {l : List ((String × String) × Session)}
    (locks : List ((String × String) × Unit))
    (h : l.length ≤ _MAX_CACHED_SESSIONS) : evictLoop l locks = (l, locks) := by
  cases l with
  | nil => rfl
  | cons e rest =>
    unfold evictLoop
    rw [if_neg (not_lt.mpr h)]

theorem moveToEnd_dictInsert_not_mem {K V : Type} [DecidableEq K]
    {l : List (K × V)} {k : K} (v : V) (h : memA l k = false) :
    moveToEnd (dictInsert l k v) k = l ++ [(k, v)] := by
  have hd : dictInsert l k v = l ++ [(k, v)] := by
    unfold dictInsert
    rw [if_neg (by simp [h])]
  have hlk : lookupA (l ++ [(k, v)]) k = some v := by
    rw [lookupA_append_right h]
    simp [lookupA]
  rw [hd]
  unfold moveToEnd
  rw [hlk, eraseA_append_not_mem h]
  simp [eraseA]

theorem get_session_hit (fs : FSModel) (mk : String → Session) (st : Registry)
    (cd pd : String) (sess : Session)
    (h : lookupA st.session_cache (cache_key fs cd pd) = some sess) :
    _get_session fs mk st cd pd =
      (sess,
       { st with
           session_cache :=
             eraseA st.session_cache (cache_key fs cd pd) ++
               [(cache_key fs cd pd, sess)] }) := by
  simp only [_get_session, h, moveToEnd]

theorem get_session_miss (fs : FSModel) (mk : String → Session) (st : Registry)
    (cd pd : String)
    (h : lookupA st.session_cache (cache_key fs cd pd) = none) :
    _get_session fs mk st cd pd =
      (mk (cache_key fs cd pd).1,
       ⟨(evictLoop (st.session_cache ++ [(cache_key fs cd pd, mk (cache_key fs cd pd).1)])
           st.session_locks).1,
        (evictLoop (st.session_cache ++ [(cache_key fs cd pd, mk (cache_key fs cd pd).1)])
           st.session_locks).2⟩) := by
  simp only [_get_session, h]
  rw [moveToEnd_dictInsert_not_mem (l := st.session_cache) (k := cache_key fs cd pd)
      (mk (cache_key fs cd pd).1) (by simp [memA, h])]

theorem get_session_step_len (fs : FSModel) (mk : String → Session) (st : Registry)
    (cd pd : String) (h : st.session_cache.length ≤ _MAX_CACHED_SESSIONS) :
    ((_get_session fs mk st cd pd).2).session_cache.length ≤ _MAX_CACHED_SESSIONS := by
  cases hl : lookupA st.session_cache (cache_key fs cd pd) with
  | some sess =>
    rw [get_session_hit fs mk st cd pd sess hl]
    simp only [List.length_append, List.length_cons, List.length_nil]
    have := eraseA_length_of_mem (l := st.session_cache)
      (k := cache_key fs cd pd) (by simp [memA, hl])
    omega
  | none =>
    rw [get_session_miss fs mk st cd pd hl]
    exact evictLoop_length_le _ _

theorem runGetSessions_len (fs : FSModel) (mk : String → Session) :
    ∀ (calls : List (String × String)) (st : Registry),
    st.session_cache.length ≤ _MAX_CACHED_SESSIONS →
    (runGetSessions fs mk st calls).session_cache.length ≤ _MAX_CACHED_SESSIONS := by
  intro calls
  induction calls with
  | nil => intro st h; exact h
  | cons e rest ih =>
    intro st h
    obtain ⟨cd, pd⟩ := e
    exact ih _ (get_session_step_len fs mk st cd pd h)

/-- C3: the session registry is a strict LRU of capacity 3 — for every
sequence of `_get_session` calls starting at or below capacity the
registry never exceeds 3 entries; a hit returns the cached handle and
re-inserts it at the most-recently-used end; a miss constructs
`mk` of the key's config-root and appends it, and when the registry
held 3 entries the least-recently-used (front) entry is evicted
together with its entry in the lock registry. -/
theorem session_registry_lru (fs : FSModel) (mk : String → Session) :
    (∀ (st : Registry) (calls : List (String × String)),
      st.session_cache.length ≤ _MAX_CACHED_SESSIONS →
      (runGetSessions fs mk st calls).session_cache.length ≤ _MAX_CACHED_SESSIONS) ∧
    (∀ st cd pd sess, lookupA st.session_cache (cache_key fs cd pd) = some sess →
      _get_session fs mk st cd pd =
        (sess,
         { st with
             session_cache :=
               eraseA st.session_cache (cache_key fs cd pd) ++
                 [(cache_key fs cd pd, sess)] })) ∧
    (∀ st cd pd, lookupA st.session_cache (cache_key fs cd pd) = none →
      st.session_cache.length < _MAX_CACHED_SESSIONS →
      _get_session fs mk st cd pd =
        (mk (cache_key fs cd pd).1,
         { st with
             session_cache :=
               st.session_cache ++ [(cache_key fs cd pd, mk (cache_key fs cd pd).1)] })) ∧
    (∀ st cd pd e rest, lookupA st.session_cache (cache_key fs cd pd) = none →
      st.session_cache = e :: rest →
      st.session_cache.length = _MAX_CACHED_SESSIONS →
      _get_session fs mk st cd pd =
        (mk (cache_key fs cd pd).1,
         ⟨rest ++ [(cache_key fs cd pd, mk (cache_key fs cd pd).1)],
          eraseA st.session_locks e.1⟩)) := by
  refine ⟨fun st calls h => runGetSessions_len fs mk calls st h,
          fun st cd pd sess h => get_session_hit fs mk st cd pd sess h,
          fun st cd pd h hlen => ?_, fun st cd pd e rest h hc hlen => ?_⟩
  · rw [get_session_miss fs mk st cd pd h,
        evictLoop_of_le st.session_locks (by simp; omega)]
  · rw [get_session_miss fs mk st cd pd h]
    have hrest : rest.length = 2 := by
      rw [hc] at hlen
      simpa [_MAX_CACHED_SESSIONS] using hlen
    rw [hc]
    have h4 : ((e :: rest) ++ [(cache_key fs cd pd, mk (cache_key fs cd pd).1)]).length >
        _MAX_CACHED_SESSIONS := by
      simp [_MAX_CACHED_SESSIONS, hrest]
    conv_lhs => rw [List.cons_append, evictLoop, if_pos (by simpa using h4)]
    rw [evictLoop_of_le _ (by simp [_MAX_CACHED_SESSIONS, hrest])]

/-- Witness for C3: a four-insert sequence stays at 3 entries; a hit
returns the cached handle and moves it last; the fourth distinct insert
evicts the oldest key and its lock. -/
theorem session_registry_lru_witness :
    (runGetSessions idFS (fun r => ⟨r, []⟩)
      ⟨[], []⟩ [("/a", ""), ("/b", ""), ("/c", ""), ("/d", "")]).session_cache.length ≤
      _MAX_CACHED_SESSIONS ∧
    _get_session idFS (fun r => ⟨r, []⟩)
      ⟨[(("/a", ""), ⟨"/a", []⟩), (("/b", ""), ⟨"/b", []⟩)], []⟩ "/a" "" =
      (⟨"/a", []⟩,
       ⟨[(("/b", ""), ⟨"/b", []⟩), (("/a", ""), ⟨"/a", []⟩)], []⟩) ∧
    _get_session idFS (fun r => ⟨r, []⟩)
      ⟨[(("/a", ""), ⟨"/a", []⟩), (("/b", ""), ⟨"/b", []⟩), (("/c", ""), ⟨"/c", []⟩)],
       [(("/a", ""), ())]⟩ "/d" "" =
      (⟨"/d", []⟩,
       ⟨[(("/b", ""), ⟨"/b", []⟩), (("/c", ""), ⟨"/c", []⟩), (("/d", ""), ⟨"/d", []⟩)],
        []⟩) := by
  refine ⟨(session_registry_lru idFS (fun r => ⟨r, []⟩)).1 ⟨[], []⟩
      [("/a", ""), ("/b", ""), ("/c", ""), ("/d", "")] (by simp [_MAX_CACHED_SESSIONS]),
    ?_, ?_⟩
  · exact (session_registry_lru idFS (fun r => ⟨r, []⟩)).2.1
      ⟨[(("/a", ""), ⟨"/a", []⟩), (("/b", ""), ⟨"/b", []⟩)], []⟩ "/a" "" ⟨"/a", []⟩ rfl
  · exact (session_registry_lru idFS (fun r => ⟨r, []⟩)).2.2.2
      ⟨[(("/a", ""), ⟨"/a", []⟩), (("/b", ""), ⟨"/b", []⟩), (("/c", ""), ⟨"/c", []⟩)],
       [(("/a", ""), ())]⟩ "/d" "" (("/a", ""), ⟨"/a", []⟩)
      [(("/b", ""), ⟨"/b", []⟩), (("/c", ""), ⟨"/c", []⟩)] rfl rfl rfl

end Claudex
